import Mathlib

/-!
Shallow embedding of the chunked-upload engine in src/src/index.ts
(class UploadChunkFile, two variants separated in the file), together with
src/src/utils/Errors.ts and the option types in src/src/types.d.ts.

Modelling conventions:
- JavaScript numbers are modelled as exact integers (Int) or naturals (Nat);
  file sizes and progress percentages stay well inside the exact range of
  IEEE doubles, so exact arithmetic is faithful.
- Asynchronous execution is modelled by explicit completion-order lists and
  explicit operation traces (single-threaded cooperative model: a code region
  with no await point is atomic).
- A fallible computation is an Except value; thrown JS errors are the
  JsError type below, mirroring the two error classes of Errors.ts plus
  arbitrary platform errors carrying a name.
-/

set_option autoImplicit false

namespace UploadChunkFile

/-- Errors of src/src/utils/Errors.ts: both classes extend Error and set
their own name; jsError covers any other platform error with its name
(for example a DOMException whose name is AbortError). -/
inductive JsError where
  | uploadAbortedError (msg : String)
  | fileUploadError (msg : String)
  | jsError (name msg : String)
deriving DecidableEq

/-- The name property of a JS error: each class in Errors.ts assigns
this.name in its constructor. -/
def JsError.name : JsError → String
  | .uploadAbortedError _ => "UploadAbortedError"
  | .fileUploadError _ => "FileUploadError"
  | .jsError n _ => n

/-- The check performed by the code as: error instanceof UploadAbortedError. -/
def JsError.isAbort : JsError → Bool
  | .uploadAbortedError _ => true
  | _ => false

/-- User-supplied payloadOptions object (types.d.ts PayloadOptions): every
field optional; none models undefined. -/
structure PayloadInput where
  chunkName : Option String
  fileName : Option String
  currentChunk : Option String
  totalChunk : Option String
deriving DecidableEq

/-- User-supplied options object (types.d.ts Options / MultipartOptions):
every field optional; none models undefined. Fields not used by the claims
(method, uploadType, signal) are omitted. -/
structure OptionsInput where
  chunkSize : Option Int
  maxRetries : Option Int
  retryDelay : Option Int
  maxParallel : Option Int
  payloadOptions : Option PayloadInput
deriving DecidableEq

/-- The multipartOptions record the constructor builds (all fields defined). -/
structure MultipartOptions where
  chunkSize : Int
  maxRetries : Int
  retryDelay : Int
  maxParallel : Int
deriving DecidableEq

/-- The payloadOptions record the constructor builds (all fields defined). -/
structure PayloadOptions where
  chunkName : String
  fileName : String
  currentChunk : String
  totalChunk : String
deriving DecidableEq

/-- JS logical-or defaulting on a possibly-undefined number, as in
options?.chunkSize || dflt: undefined and 0 are falsy, every other integer
is truthy. -/
def jsOr (v : Option Int) (d : Int) : Int :=
  match v with
  | none => d
  | some n => if n = 0 then d else n

/-- JS nullish defaulting on a possibly-undefined string, as in
options?.payloadOptions?.chunkName ?? dflt: only undefined and null are
replaced; an empty string is kept. -/
def jsNullish (v : Option String) (d : String) : String := v.getD d

/-- Constructor of the first variant (index.ts lines 24-47): multipart
options defaulted with the || operator; defaults 5 MiB, 5, 3000, 5. -/
def mkMultipartOptions (options : Option OptionsInput) : MultipartOptions :=
  ⟨jsOr (options.bind OptionsInput.chunkSize) (5 * 1024 * 1024),
   jsOr (options.bind OptionsInput.maxRetries) 5,
   jsOr (options.bind OptionsInput.retryDelay) 3000,
   jsOr (options.bind OptionsInput.maxParallel) 5⟩

/-- Constructor of the second variant (index.ts lines 342-365): same ||
defaulting; defaults 5 MiB, 2, 1000, 1. -/
def mkMultipartOptionsV2 (options : Option OptionsInput) : MultipartOptions :=
  ⟨jsOr (options.bind OptionsInput.chunkSize) (5 * 1024 * 1024),
   jsOr (options.bind OptionsInput.maxRetries) 2,
   jsOr (options.bind OptionsInput.retryDelay) 1000,
   jsOr (options.bind OptionsInput.maxParallel) 1⟩

/-- Constructor defaulting of payloadOptions (both variants, ?? operator). -/
def mkPayloadOptions (options : Option OptionsInput) : PayloadOptions :=
  ⟨jsNullish ((options.bind OptionsInput.payloadOptions).bind PayloadInput.chunkName) "chunk",
   jsNullish ((options.bind OptionsInput.payloadOptions).bind PayloadInput.fileName) "fileName",
   jsNullish ((options.bind OptionsInput.payloadOptions).bind PayloadInput.currentChunk) "currentChunk",
   jsNullish ((options.bind OptionsInput.payloadOptions).bind PayloadInput.totalChunk) "totalChunk"⟩

/-- Math.ceil(S / C) for a non-negative integer S and a nonzero integer C,
in exact arithmetic. The C = 0 case is unreachable from the constructor
(the || defaulting never yields 0); it is given the value 0 for totality. -/
def mathCeilDiv (S : Nat) (C : Int) : Int :=
  if 0 < C then ((S + C.toNat - 1) / C.toNat : Nat)
  else if C < 0 then -((S / C.natAbs : Nat) : Int)
  else 0

/-- Result of calculateMultipartDetails: partSize, the list of partNumber
values, and totalParts. -/
structure MultipartDetails where
  partSize : Int
  parts : List Nat
  totalParts : Int
deriving DecidableEq

/-- calculateMultipartDetails (first variant, index.ts lines 142-151;
the second variant lines 601-609 is identical with partSize taken from
this.multipartOptions.chunkSize): totalParts = Math.ceil(size / partSize),
parts = Array.from of that length with partNumber = index (0-based).
Array.from of a non-positive length is the empty array, which Int.toNat
reproduces. -/
def calculateMultipartDetails (fileSize : Nat) (partSize : Int) : MultipartDetails :=
  let totalParts := mathCeilDiv fileSize partSize
  ⟨partSize, List.range totalParts.toNat, totalParts⟩

/-- Blob.slice(start, end) of the File API on a blob of the given size:
a negative index is taken relative to the end and clamped at 0, a
non-negative index is clamped at size; the result is the byte range
starting at relStart whose length is max(relEnd - relStart, 0).
Returned as (offset, length). -/
def blobSlice (size : Nat) (start endPos : Int) : Nat × Nat :=
  let relStart : Int := if start < 0 then max ((size : Int) + start) 0 else min start (size : Int)
  let relEnd : Int := if endPos < 0 then max ((size : Int) + endPos) 0 else min endPos (size : Int)
  (relStart.toNat, (relEnd - relStart).toNat)

/-- The byte ranges multipartUpload actually slices and uploads (first
variant, index.ts lines 122-132): for each planned part it uploads
file.slice((partNumber - 1) * partSize, partNumber * partSize); the second
variant lines 429-438 computes the same ranges from chunkIndex. -/
def uploadedRanges (fileSize : Nat) (partSize : Int) : List (Nat × Nat) :=
  (calculateMultipartDetails fileSize partSize).parts.map fun p =>
    blobSlice fileSize (((p : Int) - 1) * partSize) ((p : Int) * partSize)

/-- The chunked-upload pipeline from user options to the chunk plan:
constructor defaulting followed by the planner. No step of this pipeline
can fail: both functions are total and return no error. -/
def multipartPlan (userOptions : Option OptionsInput) (fileSize : Nat) : MultipartDetails :=
  calculateMultipartDetails fileSize (mkMultipartOptions userOptions).chunkSize

/-- Observable outcome of one executeWithRetry run: the settled result, the
number of invocations of the wrapped thunk, and the number of retryDelay
waits performed. -/
structure RetryRun (α : Type) where
  result : Except JsError α
  invocations : Nat
  delays : Nat

/-- executeWithRetry (first variant, index.ts lines 257-274; the second
variant lines 514-531 is identical): call the thunk; on success return; on
an UploadAbortedError rethrow immediately; otherwise if retries > 0 wait
the retry delay and recurse with retries - 1, else rethrow. The thunk is
modelled as an oracle indexed by the attempt number (attempt k is the
k+1-th invocation), since successive invocations of the same JS thunk may
settle differently. -/
def executeWithRetry {α : Type} (func : Nat → Except JsError α) (attempt retries : Nat) :
    RetryRun α :=
  match func attempt with
  | Except.ok a => ⟨Except.ok a, 1, 0⟩
  | Except.error e =>
    if e.isAbort then ⟨Except.error e, 1, 0⟩
    else
      match retries with
      | 0 => ⟨Except.error e, 1, 0⟩
      | r + 1 =>
        let rest := executeWithRetry func (attempt + 1) r
        ⟨rest.result, rest.invocations + 1, rest.delays + 1⟩

/-- Attempt k of the oracle settles with an error that is not an
UploadAbortedError (a retryable failure). -/
def nonAbortFail {α : Type} (func : Nat → Except JsError α) (k : Nat) : Prop :=
  ∃ e, func k = Except.error e ∧ e.isAbort = false

/-- Scheduler of the first variant (index.ts lines 251-308), observed at
the level of completed tasks: results is preallocated with
new Array(items.length); each task i, upon completion, performs
results[i] = result where result is the worker applied to items[i]; the
order list is the order in which tasks complete (the semaphore and the
event loop determine it, so it is universally quantified in the theorems).
A slot never written stays empty (none). -/
def processInBatches {α β : Type} (items : List α) (worker : α → β) (order : List Nat) :
    List (Option β) :=
  order.foldl (fun results i => results.set i (items[i]?.map worker))
    (List.replicate items.length none)

/-- Scheduler of the second variant (index.ts lines 496-553): no results
array; a single variable finalResult is assigned only by the task whose
index i equals items.length - 1, and is what the function returns after
Promise.all. none models the undefined finalResult of an empty input. -/
def processInBatchesMultiple {α β : Type} (items : List α) (worker : α → β) (order : List Nat) :
    Option β :=
  order.foldl (fun acc i => if i = items.length - 1 then items[i]?.map worker else acc) none

/-- The two operations on the ad-hoc semaphore of processInBatches (both
variants): wait (the while-loop admission followed by count--) and signal
(count++ in the finally block). -/
inductive SemOp where
  | wait
  | signal
deriving DecidableEq

/-- Semaphore state: count is this.count; inFlight counts tasks that have
completed wait but not yet run signal (started but unsettled workers). -/
structure SemState where
  count : Int
  inFlight : Nat
deriving DecidableEq

/-- One semaphore step under the single-threaded cooperative model. wait is
enabled only when count > 0: the while-loop body has an await, but the exit
test and the count-- that follows it run with no intervening await, so they
are atomic; a task whose test sees count <= 0 simply stays blocked (no
step). signal is run only from the finally block of a task that holds a
permit, so it is enabled only when some task is in flight. -/
def semStep (s : SemState) (op : SemOp) : Option SemState :=
  match op with
  | SemOp.wait => if 0 < s.count then some ⟨s.count - 1, s.inFlight + 1⟩ else none
  | SemOp.signal => if 0 < s.inFlight then some ⟨s.count + 1, s.inFlight - 1⟩ else none

/-- Run a trace of semaphore operations from a state; none when some step
is not enabled (such a trace cannot occur in an execution). -/
def execTrace (s : SemState) : List SemOp → Option SemState
  | [] => some s
  | op :: rest =>
    match semStep s op with
    | none => none
    | some next => execTrace next rest

/-- Initial semaphore state of processInBatches: count starts at
this.multipartOptions.maxParallel and no task is in flight. -/
def initSem (maxParallel : Nat) : SemState := ⟨maxParallel, 0⟩

/-- JS Map.set on the insertion-ordered entry list backing a Map: replace
the value of an existing key in place, else append the new entry. -/
def mapSet (m : List (Nat × ℚ)) (k : Nat) (v : ℚ) : List (Nat × ℚ) :=
  match m with
  | [] => [(k, v)]
  | (k0, v0) :: rest => if k0 = k then (k, v) :: rest else (k0, v0) :: mapSet rest k v

/-- Array.from(map.values()).reduce((sum, value) => sum + value, 0). -/
def mapValuesSum (m : List (Nat × ℚ)) : ℚ := (m.map Prod.snd).foldl (fun sum value => sum + value) 0

/-- The last-known percentage of chunk k in the progress table: the stored
value when present, else 0 (an unreported chunk contributes 0). -/
def lastKnown (m : List (Nat × ℚ)) (k : Nat) : ℚ :=
  match m with
  | [] => 0
  | (k0, v0) :: rest => if k0 = k then v0 else lastKnown rest k

/-- The uploadProgress map after a sequence of per-chunk progress reports
(partNumber, percentage), as maintained by the onProgressChange closure of
uploadPart (first variant, index.ts lines 94-120; second variant lines
402-427): each report performs uploadProgress.set(partNumber, progress). -/
def progressTable (reports : List (Nat × ℚ)) : List (Nat × ℚ) :=
  reports.foldl (fun m r => mapSet m r.1 r.2) []

/-- The overall value handed to the caller-supplied callback by the n+1-th
report: totalProgress / totalParts where totalProgress sums the map values
just after that report. -/
def emittedOverall (totalParts : Nat) (reports : List (Nat × ℚ)) (n : Nat) : ℚ :=
  mapValuesSum (progressTable (reports.take (n + 1))) / (totalParts : ℚ)

/-- The observable behaviour of the inner upload promise that uploadFile
returns: the progress values it reports, then its settlement. -/
structure AsyncUploadRun (T : Type) where
  events : List ℚ
  outcome : Except JsError T

/-- handleUploadError (first variant, index.ts lines 310-317; second
variant lines 611-617 identical): an error named AbortError is replaced by
a new UploadAbortedError (with no progress emission); any other error
first triggers onProgressChange(0) and is then rethrown. Returns the
emitted progress values and the propagated error. -/
def handleUploadError (e : JsError) : List ℚ × JsError :=
  if e.name = "AbortError" then ([], JsError.uploadAbortedError "Upload aborted by user")
  else ([0], e)

/-- uploadFile (first variant, index.ts lines 50-76), observed as the pair
(progress values delivered to the caller, settlement). It first emits
progress 0, then dispatches on uploadType. For multipart and single the
try block evaluates: return this.multipartUpload(...) (respectively
singleFileUpload) WITHOUT await, so the returned promise merely passes
through: a later rejection of that promise happens outside the try/catch
and is never seen by the catch block, hence handleUploadError does not run
and the run's events and outcome propagate unchanged. Only a synchronous
throw inside the try block reaches the catch; the only such throw is the
invalid-uploadType branch. -/
def uploadFile {T : Type} (uploadType : String) (run : AsyncUploadRun T) :
    List ℚ × Except JsError T :=
  if uploadType = "multipart" ∨ uploadType = "single" then
    (0 :: run.events, run.outcome)
  else
    let handled := handleUploadError (JsError.jsError "Error" ("Invalid upload type: " ++ uploadType))
    (0 :: handled.1, Except.error handled.2)

/-! Helper lemmas. -/

/-- The || defaulting never produces 0 when the default is nonzero. -/
theorem jsOr_ne_zero (v : Option Int) (d : Int) (hd : d ≠ 0) : jsOr v d ≠ 0 := by
  cases v with
  | none => exact hd
  | some n =>
    by_cases h : n = 0 <;> simp [jsOr, h, hd]

/-- Ceiling-division adjunction: (S + C - 1) / C is the least k with
S ≤ k * C. -/
theorem ceilDiv_le_iff (S C k : Nat) (hC : 0 < C) : (S + C - 1) / C ≤ k ↔ S ≤ k * C := by
  rw [Nat.div_le_iff_le_mul_add_pred hC]
  rw [Nat.mul_comm]
  omega

/-- On a positive chunk size, mathCeilDiv is the natural ceiling
division. -/
theorem mathCeilDiv_pos_eq (S C : Nat) (hC : 0 < C) :
    mathCeilDiv S (C : Int) = ((S + C - 1) / C : Nat) := by
  have h0 : (0 : Int) < (C : Int) := by exact_mod_cast hC
  simp only [mathCeilDiv, if_pos h0, Int.toNat_natCast]

/-- Unfolding: a successful attempt returns at once with one invocation
and no delay. -/
theorem executeWithRetry_ok {α : Type} (func : Nat → Except JsError α) (s r : Nat) (a : α)
    (h : func s = Except.ok a) : executeWithRetry func s r = ⟨Except.ok a, 1, 0⟩ := by
  unfold executeWithRetry
  rw [h]

/-- Unfolding: an aborted attempt rethrows at once, whatever the remaining
retry budget. -/
theorem executeWithRetry_abort_step {α : Type} (func : Nat → Except JsError α) (s r : Nat)
    (e : JsError) (h : func s = Except.error e) (hab : e.isAbort = true) :
    executeWithRetry func s r = ⟨Except.error e, 1, 0⟩ := by
  unfold executeWithRetry
  rw [h]
  simp [hab]

/-- Unfolding: a retryable failure with an exhausted budget rethrows. -/
theorem executeWithRetry_error_zero {α : Type} (func : Nat → Except JsError α) (s : Nat)
    (e : JsError) (h : func s = Except.error e) (hab : e.isAbort = false) :
    executeWithRetry func s 0 = ⟨Except.error e, 1, 0⟩ := by
  unfold executeWithRetry
  rw [h]
  simp [hab]

/-- Unfolding: a retryable failure with budget r + 1 waits one delay and
recurses on the next attempt with budget r. -/
theorem executeWithRetry_error_succ {α : Type} (func : Nat → Except JsError α) (s r : Nat)
    (e : JsError) (h : func s = Except.error e) (hab : e.isAbort = false) :
    executeWithRetry func s (r + 1) =
      ⟨(executeWithRetry func (s + 1) r).result,
       (executeWithRetry func (s + 1) r).invocations + 1,
       (executeWithRetry func (s + 1) r).delays + 1⟩ := by
  conv_lhs => rw [executeWithRetry]
  rw [h]
  simp [hab]

/-- If the r attempts starting at s are retryable failures and attempt
s + r succeeds, the run succeeds with r + 1 invocations and r delays. -/
theorem executeWithRetry_success_general {α : Type} (r : Nat) :
    ∀ (s : Nat) (func : Nat → Except JsError α) (a : α),
      (∀ k, k < r → nonAbortFail func (s + k)) → func (s + r) = Except.ok a →
      executeWithRetry func s r = ⟨Except.ok a, r + 1, r⟩ := by
  induction r with
  | zero =>
    intro s func a _ hok
    exact executeWithRetry_ok func s 0 a (by simpa using hok)
  | succ r ih =>
    intro s func a hfail hok
    obtain ⟨e, he, hab⟩ := hfail 0 (Nat.succ_pos r)
    rw [Nat.add_zero] at he
    rw [executeWithRetry_error_succ func s r e he hab]
    have hrec := ih (s + 1) func a
      (fun k hk => by
        have h2 := hfail (k + 1) (by omega)
        rwa [show s + (k + 1) = s + 1 + k by omega] at h2)
      (by rwa [show s + 1 + r = s + (r + 1) by omega])
    rw [hrec]

/-- If all r + 1 attempts starting at s are retryable failures, the run
rethrows the last error with r + 1 invocations and r delays. -/
theorem executeWithRetry_failure_general {α : Type} (r : Nat) :
    ∀ (s : Nat) (func : Nat → Except JsError α) (errf : Nat → JsError),
      (∀ k, k ≤ r → func (s + k) = Except.error (errf (s + k)) ∧ (errf (s + k)).isAbort = false) →
      executeWithRetry func s r = ⟨Except.error (errf (s + r)), r + 1, r⟩ := by
  induction r with
  | zero =>
    intro s func errf h
    obtain ⟨he, hab⟩ := h 0 (Nat.le_refl 0)
    rw [Nat.add_zero] at he hab
    exact executeWithRetry_error_zero func s _ he hab
  | succ r ih =>
    intro s func errf h
    obtain ⟨he, hab⟩ := h 0 (Nat.zero_le _)
    rw [Nat.add_zero] at he hab
    rw [executeWithRetry_error_succ func s r _ he hab]
    have hrec := ih (s + 1) func errf
      (fun k hk => by
        have h2 := h (k + 1) (by omega)
        rwa [show s + (k + 1) = s + 1 + k by omega] at h2)
    rw [hrec]
    rw [show s + 1 + r = s + (r + 1) by omega]

/-- If the j attempts starting at s are retryable failures and attempt
s + j aborts, the run rethrows the abort at once: j + 1 invocations and j
delays, independently of the remaining budget r - j. -/
theorem executeWithRetry_abort_general {α : Type} (j : Nat) :
    ∀ (s r : Nat) (func : Nat → Except JsError α) (msg : String),
      j ≤ r → (∀ k, k < j → nonAbortFail func (s + k)) →
      func (s + j) = Except.error (JsError.uploadAbortedError msg) →
      executeWithRetry func s r = ⟨Except.error (JsError.uploadAbortedError msg), j + 1, j⟩ := by
  induction j with
  | zero =>
    intro s r func msg _ _ habort
    rw [Nat.add_zero] at habort
    exact executeWithRetry_abort_step func s r _ habort rfl
  | succ j ih =>
    intro s r func msg hjr hfail habort
    obtain ⟨r0, rfl⟩ : ∃ r0, r = r0 + 1 := ⟨r - 1, by omega⟩
    obtain ⟨e, he, hab⟩ := hfail 0 (Nat.succ_pos j)
    rw [Nat.add_zero] at he
    rw [executeWithRetry_error_succ func s r0 e he hab]
    have hrec := ih (s + 1) r0 func msg (by omega)
      (fun k hk => by
        have h2 := hfail (k + 1) (by omega)
        rwa [show s + (k + 1) = s + 1 + k by omega] at h2)
      (by rwa [show s + 1 + j = s + (j + 1) by omega])
    rw [hrec]

/-- Folding completion-order writes never changes the length of the
results array. -/
theorem foldl_set_length {β : Type} (value : Nat → Option β) (order : List Nat) :
    ∀ init : List (Option β),
      (order.foldl (fun results i => results.set i (value i)) init).length = init.length := by
  induction order with
  | nil => intro init; rfl
  | cons o rest ih =>
    intro init
    rw [List.foldl_cons, ih, List.length_set]

/-- A slot whose index never completes is left untouched. -/
theorem foldl_set_not_mem {β : Type} (value : Nat → Option β) (order : List Nat) :
    ∀ (init : List (Option β)) (i : Nat), i ∉ order →
      (order.foldl (fun results j => results.set j (value j)) init)[i]? = init[i]? := by
  induction order with
  | nil => intro init i _; rfl
  | cons o rest ih =>
    intro init i hmem
    rw [List.foldl_cons, ih _ i (fun h => hmem (List.mem_cons_of_mem o h))]
    refine List.getElem?_set_ne ?_
    intro h
    exact hmem (by rw [← h]; exact List.mem_cons_self o rest)

/-- A slot whose index completes at least once holds its own value at the
end, whatever the completion order. -/
theorem foldl_set_mem {β : Type} (value : Nat → Option β) (order : List Nat) :
    ∀ (init : List (Option β)) (i : Nat), i ∈ order → i < init.length →
      (order.foldl (fun results j => results.set j (value j)) init)[i]? = some (value i) := by
  induction order with
  | nil => intro init i h _; cases h
  | cons o rest ih =>
    intro init i hmem hlen
    rw [List.foldl_cons]
    by_cases hr : i ∈ rest
    · exact ih _ i hr (by rw [List.length_set]; exact hlen)
    · have hio : i = o := by
        rcases List.mem_cons.mp hmem with h | h
        · exact h
        · exact absurd h hr
      subst hio
      rw [foldl_set_not_mem value rest _ i hr]
      exact List.getElem?_set_eq_of_lt (value i) hlen

/-- Semaphore trace invariant: along any enabled trace, count stays
non-negative and count + inFlight is conserved. -/
theorem execTrace_invariant (trace : List SemOp) :
    ∀ (s0 s : SemState) (P : Nat), 0 ≤ s0.count → s0.count + s0.inFlight = P →
      execTrace s0 trace = some s → 0 ≤ s.count ∧ s.count + s.inFlight = P := by
  induction trace with
  | nil =>
    intro s0 s P h0 hsum hrun
    cases hrun
    exact ⟨h0, hsum⟩
  | cons op rest ih =>
    intro s0 s P h0 hsum hrun
    cases op with
    | wait =>
      by_cases hc : 0 < s0.count
      · have hstep : execTrace s0 (SemOp.wait :: rest) =
            execTrace ⟨s0.count - 1, s0.inFlight + 1⟩ rest := by
          simp [execTrace, semStep, hc]
        rw [hstep] at hrun
        refine ih ⟨s0.count - 1, s0.inFlight + 1⟩ s P (by show 0 ≤ s0.count - 1; omega) ?_ hrun
        show s0.count - 1 + ((s0.inFlight + 1 : Nat) : Int) = (P : Int)
        push_cast
        omega
      · simp [execTrace, semStep, hc] at hrun
    | signal =>
      by_cases hc : 0 < s0.inFlight
      · have hstep : execTrace s0 (SemOp.signal :: rest) =
            execTrace ⟨s0.count + 1, s0.inFlight - 1⟩ rest := by
          simp [execTrace, semStep, hc]
        rw [hstep] at hrun
        refine ih ⟨s0.count + 1, s0.inFlight - 1⟩ s P (by show 0 ≤ s0.count + 1; omega) ?_ hrun
        show s0.count + 1 + ((s0.inFlight - 1 : Nat) : Int) = (P : Int)
        push_cast [hc]
        omega
      · simp [execTrace, semStep, hc] at hrun

/-- The reduce over the map values is the list sum of the values. -/
theorem mapValuesSum_eq_sum (m : List (Nat × ℚ)) : mapValuesSum m = (m.map Prod.snd).sum := by
  rw [mapValuesSum, List.sum_eq_foldl]

/-- A key absent from the table has last-known percentage 0. -/
theorem lastKnown_eq_zero_of_not_mem (k : Nat) :
    ∀ m : List (Nat × ℚ), k ∉ m.map Prod.fst → lastKnown m k = 0 := by
  intro m
  induction m with
  | nil => intro _; rfl
  | cons kv rest ih =>
    intro hmem
    have hk : kv.1 ≠ k := by
      intro h
      exact hmem (by rw [List.map_cons, h]; exact List.mem_cons_self k _)
    have hr : k ∉ rest.map Prod.fst := fun h => hmem (by rw [List.map_cons]; exact List.mem_cons_of_mem _ h)
    calc lastKnown (kv :: rest) k = lastKnown rest k := by
          rw [show kv = (kv.1, kv.2) from rfl, lastKnown, if_neg hk]
    _ = 0 := ih hr

/-- Bounds on the last-known percentage when all stored values are within
bounds. -/
theorem lastKnown_bounds (k : Nat) :
    ∀ m : List (Nat × ℚ), (∀ kv ∈ m, 0 ≤ kv.2 ∧ kv.2 ≤ 100) →
      0 ≤ lastKnown m k ∧ lastKnown m k ≤ 100 := by
  intro m
  induction m with
  | nil => intro _; constructor <;> norm_num [lastKnown]
  | cons kv rest ih =>
    intro hb
    rw [show kv = (kv.1, kv.2) from rfl, lastKnown]
    by_cases h : kv.1 = k
    · rw [if_pos h]
      exact hb kv (List.mem_cons_self kv rest)
    · rw [if_neg h]
      exact ih (fun x hx => hb x (List.mem_cons_of_mem kv hx))

/-- The sum of the map values equals the sum of the last-known
percentages over all totalParts chunk indices, provided the keys are
distinct and in range: absent chunks contribute 0 to both sides. -/
theorem sum_lastKnown (T : Nat) :
    ∀ m : List (Nat × ℚ), (m.map Prod.fst).Nodup → (∀ kv ∈ m, kv.1 < T) →
      Finset.sum (Finset.range T) (lastKnown m) = mapValuesSum m := by
  intro m
  induction m with
  | nil =>
    intro _ _
    calc Finset.sum (Finset.range T) (lastKnown []) = Finset.sum (Finset.range T) (fun _ => (0 : ℚ)) := rfl
    _ = 0 := Finset.sum_const_zero
    _ = mapValuesSum [] := rfl
  | cons kv rest ih =>
    intro hnd hmem
    have hk : kv.1 ∉ rest.map Prod.fst := by
      rw [List.map_cons, List.nodup_cons] at hnd
      exact hnd.1
    have hnd2 : (rest.map Prod.fst).Nodup := by
      rw [List.map_cons, List.nodup_cons] at hnd
      exact hnd.2
    have hfun : lastKnown (kv :: rest) = Function.update (lastKnown rest) kv.1 kv.2 := by
      funext j
      rw [Function.update_apply, show kv = (kv.1, kv.2) from rfl, lastKnown]
      by_cases h : j = kv.1
      · rw [if_pos h, if_pos h.symm]
      · rw [if_neg h, if_neg (fun h2 => h h2.symm)]
    have hkT : kv.1 ∈ Finset.range T := Finset.mem_range.mpr (hmem kv (List.mem_cons_self kv rest))
    rw [hfun, Finset.sum_update_of_mem hkT, Finset.sdiff_singleton_eq_erase,
      Finset.sum_erase _ (lastKnown_eq_zero_of_not_mem kv.1 rest hk),
      ih hnd2 (fun x hx => hmem x (List.mem_cons_of_mem kv hx)),
      mapValuesSum_eq_sum, mapValuesSum_eq_sum, List.map_cons, List.sum_cons]

/-- Every entry of the table after a set is the new entry or an old one. -/
theorem mapSet_mem (k : Nat) (v : ℚ) :
    ∀ (m : List (Nat × ℚ)) (kv : Nat × ℚ), kv ∈ mapSet m k v → kv = (k, v) ∨ kv ∈ m := by
  intro m
  induction m with
  | nil =>
    intro kv h
    rw [mapSet] at h
    rcases List.mem_cons.mp h with h | h
    · exact Or.inl h
    · cases h
  | cons kv0 rest ih =>
    intro kv h
    rw [show kv0 = (kv0.1, kv0.2) from rfl, mapSet] at h
    by_cases he : kv0.1 = k
    · rw [if_pos he] at h
      rcases List.mem_cons.mp h with h | h
      · exact Or.inl h
      · exact Or.inr (List.mem_cons_of_mem kv0 h)
    · rw [if_neg he] at h
      rcases List.mem_cons.mp h with h | h
      · exact Or.inr (by rw [h]; exact List.mem_cons_self kv0 rest)
      · rcases ih kv h with h | h
        · exact Or.inl h
        · exact Or.inr (List.mem_cons_of_mem kv0 h)

/-- The keys of the table after a set: unchanged when the key was present,
the key appended when it was new. -/
theorem mapSet_keys (k : Nat) (v : ℚ) :
    ∀ m : List (Nat × ℚ),
      (mapSet m k v).map Prod.fst =
        if k ∈ m.map Prod.fst then m.map Prod.fst else m.map Prod.fst ++ [k] := by
  intro m
  induction m with
  | nil => rfl
  | cons kv0 rest ih =>
    rw [show kv0 = (kv0.1, kv0.2) from rfl, mapSet]
    by_cases he : kv0.1 = k
    · rw [if_pos he, List.map_cons, List.map_cons,
        if_pos (by rw [he]; exact List.mem_cons_self k _), he]
    · rw [if_neg he, List.map_cons, List.map_cons, ih]
      by_cases hr : k ∈ rest.map Prod.fst
      · rw [if_pos hr, if_pos (List.mem_cons_of_mem kv0.1 hr)]
      · rw [if_neg hr, if_neg (by
          intro h
          rcases List.mem_cons.mp h with h | h
          · exact he h.symm
          · exact hr h), List.cons_append]

/-- A set preserves distinctness of the keys. -/
theorem mapSet_keys_nodup (k : Nat) (v : ℚ) (m : List (Nat × ℚ))
    (hnd : (m.map Prod.fst).Nodup) : ((mapSet m k v).map Prod.fst).Nodup := by
  rw [mapSet_keys]
  by_cases h : k ∈ m.map Prod.fst
  · rw [if_pos h]
    exact hnd
  · rw [if_neg h]
    rw [List.nodup_append]
    exact ⟨hnd, List.nodup_singleton k, by
      intro a ha hb
      rw [List.mem_singleton] at hb
      rw [hb] at ha
      exact h ha⟩

/-- Invariant of the progress table built by folding reports into the map:
distinct keys, keys below totalParts, and values within the reported
bounds. -/
theorem foldl_mapSet_invariant (T : Nat) (reports : List (Nat × ℚ)) :
    ∀ init : List (Nat × ℚ),
      (∀ r ∈ reports, r.1 < T ∧ 0 ≤ r.2 ∧ r.2 ≤ 100) →
      (init.map Prod.fst).Nodup → (∀ kv ∈ init, kv.1 < T ∧ 0 ≤ kv.2 ∧ kv.2 ≤ 100) →
      ((reports.foldl (fun m r => mapSet m r.1 r.2) init).map Prod.fst).Nodup ∧
        ∀ kv ∈ reports.foldl (fun m r => mapSet m r.1 r.2) init,
          kv.1 < T ∧ 0 ≤ kv.2 ∧ kv.2 ≤ 100 := by
  induction reports with
  | nil =>
    intro init _ hnd hkv
    exact ⟨hnd, hkv⟩
  | cons r rest ih =>
    intro init hr hnd hkv
    rw [List.foldl_cons]
    refine ih (mapSet init r.1 r.2) (fun x hx => hr x (List.mem_cons_of_mem r hx))
      (mapSet_keys_nodup r.1 r.2 init hnd) ?_
    intro kv hmem
    rcases mapSet_mem r.1 r.2 init kv hmem with h | h
    · rw [h]
      exact hr r (List.mem_cons_self r rest)
    · exact hkv kv h

/-! Claim theorems. -/

/-- C10: a 0 supplied for chunkSize, maxRetries, retryDelay or maxParallel
is silently replaced by the documented default via || (both constructor
variants), no configuration can yield zero retries or a zero retry delay,
and the string payload fields use ?? so an explicit empty string is kept
while only undefined fields fall back to their defaults. -/
theorem constructor_zero_coalescing :
    mkMultipartOptions (some ⟨some 0, some 0, some 0, some 0, none⟩) = ⟨5 * 1024 * 1024, 5, 3000, 5⟩ ∧
    mkMultipartOptionsV2 (some ⟨some 0, some 0, some 0, some 0, none⟩) = ⟨5 * 1024 * 1024, 2, 1000, 1⟩ ∧
    (∀ o : Option OptionsInput,
      (mkMultipartOptions o).maxRetries ≠ 0 ∧ (mkMultipartOptions o).retryDelay ≠ 0 ∧
      (mkMultipartOptionsV2 o).maxRetries ≠ 0 ∧ (mkMultipartOptionsV2 o).retryDelay ≠ 0) ∧
    mkPayloadOptions (some ⟨none, none, none, none, some ⟨some "", some "", some "", some ""⟩⟩) =
      ⟨"", "", "", ""⟩ ∧
    mkPayloadOptions none = ⟨"chunk", "fileName", "currentChunk", "totalChunk"⟩ := by
  refine ⟨by decide, by decide, ?_, by decide, by decide⟩
  intro o
  exact ⟨jsOr_ne_zero _ _ (by decide), jsOr_ne_zero _ _ (by decide),
    jsOr_ne_zero _ _ (by decide), jsOr_ne_zero _ _ (by decide)⟩

/-- C9 counterexample: a non-positive chunkSize is never rejected as an
error. An explicit chunkSize of 0 is silently replaced by the 5 MiB
default and a 1-byte upload then issues one transport call (so no failure
before network activity); a negative chunkSize is kept by the constructor
and yields an empty chunk plan, hence a vacuous success, again with no
error. -/
theorem chunkSize_zero_never_rejected :
    (mkMultipartOptions (some ⟨some 0, none, none, none, none⟩)).chunkSize = 5 * 1024 * 1024 ∧
    (multipartPlan (some ⟨some 0, none, none, none, none⟩) 1).parts.length = 1 ∧
    (mkMultipartOptions (some ⟨some (-3), none, none, none, none⟩)).chunkSize = -3 ∧
    (multipartPlan (some ⟨some (-3), none, none, none, none⟩) 10).parts = [] := by
  refine ⟨by decide, ?_, by decide, by decide⟩
  decide

/-- C9 amended: the chunked-upload path never rejects a non-positive chunk
size. An explicit 0 behaves exactly as an unset chunkSize (the || default
applies) and the upload proceeds; a negative chunk size is kept, produces
a non-positive totalParts and an empty parts list, so the multipart path
issues no transport call and settles successfully. The planner itself is a
total function with no side effects and no failure mode at all. -/
theorem nonpositive_chunkSize_behavior (S : Nat) (c : Int)
    (mr rd mp : Option Int) (po : Option PayloadInput) :
    mkMultipartOptions (some ⟨some 0, mr, rd, mp, po⟩) =
      mkMultipartOptions (some ⟨none, mr, rd, mp, po⟩) ∧
    (c < 0 → (calculateMultipartDetails S c).totalParts ≤ 0) ∧
    (c < 0 → (calculateMultipartDetails S c).parts = []) := by
  have hneg : c < 0 → (calculateMultipartDetails S c).totalParts ≤ 0 := by
    intro hc
    simp only [calculateMultipartDetails, mathCeilDiv, if_neg (by omega : ¬ 0 < c), if_pos hc]
    exact neg_nonpos.mpr (Int.natCast_nonneg _)
  refine ⟨by simp [mkMultipartOptions, jsOr], hneg, ?_⟩
  intro hc
  simp only [calculateMultipartDetails, List.range_eq_nil]
  exact Int.toNat_of_nonpos (by simpa [calculateMultipartDetails] using hneg hc)

/-- C9 amended, witness: concrete instance with a 10-byte file and
chunkSize -3. -/
theorem nonpositive_chunkSize_behavior_witness :
    (mkMultipartOptions (some ⟨some 0, none, none, none, none⟩) =
      mkMultipartOptions (some ⟨none, none, none, none, none⟩) ∧
    ((-3 : Int) < 0 → (calculateMultipartDetails 10 (-3)).totalParts ≤ 0) ∧
    ((-3 : Int) < 0 → (calculateMultipartDetails 10 (-3)).parts = [])) ∧
    (calculateMultipartDetails 10 (-3)).parts = [] :=
  ⟨nonpositive_chunkSize_behavior 10 (-3) none none none none,
   (nonpositive_chunkSize_behavior 10 (-3) none none none none).2.2 (by decide)⟩

/-- C5 counterexample: for a zero-byte object with chunk size 5 the
planner produces 0 chunks, not the minimum of 1 the claim states. -/
theorem calculateMultipartDetails_zero_size :
    (calculateMultipartDetails 0 5).totalParts = 0 ∧
    (calculateMultipartDetails 0 5).parts = [] ∧
    (calculateMultipartDetails 0 5).parts.length ≠ 1 := by
  decide

/-- C5 amended: for every object size S and chunk size C > 0 the planner
produces totalChunks = ceil(S / C) chunks, where (S + C - 1) / C is
exactly the ceiling (the least k with S ≤ k * C); for S = 0 it produces 0
chunks (an empty plan, defined behavior with no crash), not 1. -/
theorem calculateMultipartDetails_count (S C : Nat) (hC : 0 < C) :
    (calculateMultipartDetails S (C : Int)).totalParts = ((S + C - 1) / C : Nat) ∧
    (calculateMultipartDetails S (C : Int)).parts.length = (S + C - 1) / C ∧
    (∀ k : Nat, (S + C - 1) / C ≤ k ↔ S ≤ k * C) ∧
    (S = 0 → (calculateMultipartDetails S (C : Int)).parts = []) := by
  have htot : (calculateMultipartDetails S (C : Int)).totalParts = ((S + C - 1) / C : Nat) := by
    simp only [calculateMultipartDetails, mathCeilDiv_pos_eq S C hC]
  refine ⟨htot, ?_, fun k => ceilDiv_le_iff S C k hC, ?_⟩
  · simp only [calculateMultipartDetails, mathCeilDiv_pos_eq S C hC, Int.toNat_natCast,
      List.length_range]
  · intro hS
    subst hS
    simp only [calculateMultipartDetails, mathCeilDiv_pos_eq 0 C hC, Int.toNat_natCast,
      List.range_eq_nil]
    exact Nat.div_eq_of_lt (by omega)

/-- C5 amended, witness: S = 12, C = 5 gives 3 chunks and the ceiling
adjunction at k = 3; S = 0 gives the empty plan. -/
theorem calculateMultipartDetails_count_witness :
    ((calculateMultipartDetails 12 (5 : Int)).totalParts = ((12 + 5 - 1) / 5 : Nat) ∧
     (calculateMultipartDetails 12 (5 : Int)).parts.length = (12 + 5 - 1) / 5 ∧
     (∀ k : Nat, (12 + 5 - 1) / 5 ≤ k ↔ 12 ≤ k * 5) ∧
     ((12 : Nat) = 0 → (calculateMultipartDetails 12 (5 : Int)).parts = [])) ∧
    (calculateMultipartDetails 12 (5 : Int)).parts.length = 3 :=
  ⟨calculateMultipartDetails_count 12 5 (by decide), by decide⟩

/-- C1: evaluation at the failing input S = 10, C = 4. The planner numbers
parts 0, 1, 2 but multipartUpload slices (partNumber - 1) * partSize to
partNumber * partSize, so the actually uploaded ranges (offset, length)
are (6, 0) (an empty blob: slice(-4, 0) resolves to start 6, end 0),
(0, 4) and (4, 4): their lengths sum to 8, not 10, and the tail byte 9 is
covered by none of them, so the ranges do not partition the 10-byte file. -/
theorem uploadedRanges_not_partition :
    uploadedRanges 10 4 = [(6, 0), (0, 4), (4, 4)] ∧
    ((uploadedRanges 10 4).map Prod.snd).sum = 8 ∧
    ((uploadedRanges 10 4).map Prod.snd).sum ≠ 10 ∧
    (uploadedRanges 10 4).all (fun r => decide (9 < r.1 ∨ r.1 + r.2 ≤ 9)) = true := by
  decide

/-- C2 counterexample: the second processInBatches variant does not return
a per-item result sequence. On two items it returns only the result of
the last item, and no post-processing of its return value can recover the
first item's worker result: two workers that differ on item 0 but agree
on item 1 produce identical outputs. -/
theorem processInBatchesMultiple_not_sequence :
    processInBatchesMultiple [10, 20] (fun n => n) [0, 1] = some 20 ∧
    ¬ ∃ extract : Option Nat → List Nat,
        ∀ f : Nat → Nat,
          extract (processInBatchesMultiple [10, 20] f [0, 1]) = [f 10, f 20] := by
  refine ⟨rfl, ?_⟩
  rintro ⟨e, h⟩
  have h1 := h (fun n => n)
  have h2 := h (fun n => if n = 10 then 0 else n)
  rw [show processInBatchesMultiple [10, 20] (fun n => n) [0, 1] = some 20 from rfl] at h1
  rw [show processInBatchesMultiple [10, 20] (fun n => if n = 10 then 0 else n) [0, 1] = some 20
    from rfl] at h2
  rw [h1] at h2
  simp at h2

/-- C6: evaluation at the failing input. A multipart upload whose inner
promise reports 50 percent and then rejects with a FileUploadError leaves
uploadFile with the trace [0, 50] and the unchanged error: no trailing
progress reset to 0 and no reclassification happens, because the catch
block never sees the asynchronous rejection (the promise is returned
without await). The same holds for a platform error named AbortError, even
though handleUploadError itself, had it run, would have reclassified it. -/
theorem uploadFile_async_error_unhandled :
    uploadFile "multipart" (⟨[50], Except.error (JsError.fileUploadError "HTTP 500")⟩ : AsyncUploadRun Nat) =
      ([0, 50], Except.error (JsError.fileUploadError "HTTP 500")) ∧
    uploadFile "multipart" (⟨[50], Except.error (JsError.jsError "AbortError" "aborted")⟩ : AsyncUploadRun Nat) =
      ([0, 50], Except.error (JsError.jsError "AbortError" "aborted")) ∧
    handleUploadError (JsError.jsError "AbortError" "aborted") =
      ([], JsError.uploadAbortedError "Upload aborted by user") ∧
    handleUploadError (JsError.fileUploadError "HTTP 500") =
      ([0], JsError.fileUploadError "HTTP 500") := by
  refine ⟨rfl, rfl, ?_, ?_⟩ <;> rfl

/-- C3: for every maxRetries and every action whose failures are
non-abort: if the first maxRetries attempts fail and attempt maxRetries
succeeds, executeWithRetry returns that success after exactly
maxRetries + 1 invocations (and maxRetries delays); if all maxRetries + 1
attempts fail, it rethrows the last error after exactly maxRetries + 1
invocations, performing no further invocation. -/
theorem executeWithRetry_retry_bound {α : Type} (maxRetries : Nat)
    (func : Nat → Except JsError α) :
    (∀ a : α, (∀ k, k < maxRetries → nonAbortFail func k) → func maxRetries = Except.ok a →
      executeWithRetry func 0 maxRetries = ⟨Except.ok a, maxRetries + 1, maxRetries⟩) ∧
    (∀ errf : Nat → JsError,
      (∀ k, k ≤ maxRetries → func k = Except.error (errf k) ∧ (errf k).isAbort = false) →
      executeWithRetry func 0 maxRetries =
        ⟨Except.error (errf maxRetries), maxRetries + 1, maxRetries⟩) := by
  constructor
  · intro a hfail hok
    have h := executeWithRetry_success_general maxRetries 0 func a
      (fun k hk => by simpa using hfail k hk) (by simpa using hok)
    exact h
  · intro errf h
    have h2 := executeWithRetry_failure_general maxRetries 0 func errf
      (fun k hk => by simpa using h k hk)
    simpa using h2

/-- C3, witness: an action failing retryably on attempts 0 and 1 and
succeeding on attempt 2, run with maxRetries = 2, succeeds with exactly 3
invocations and 2 delays. -/
theorem executeWithRetry_retry_bound_witness :
    executeWithRetry
      (fun k => if k < 2 then Except.error (JsError.fileUploadError "HTTP 500") else Except.ok 42)
      0 2 = ⟨Except.ok 42, 3, 2⟩ :=
  (executeWithRetry_retry_bound 2
      (fun k => if k < 2 then Except.error (JsError.fileUploadError "HTTP 500") else Except.ok 42)).1
    42 (fun k hk => ⟨JsError.fileUploadError "HTTP 500", by simp [hk], rfl⟩) (by simp)

/-- C7: when attempt j settles with an UploadAbortedError (after j
retryable failures), executeWithRetry rethrows it immediately: exactly
j + 1 invocations and j delays, so no delay is awaited after the abort and
the action is never invoked again, however large the remaining budget
r - j is. -/
theorem executeWithRetry_abort_bypass {α : Type} (r j : Nat)
    (func : Nat → Except JsError α) (msg : String) (hjr : j ≤ r)
    (hfail : ∀ k, k < j → nonAbortFail func k)
    (habort : func j = Except.error (JsError.uploadAbortedError msg)) :
    executeWithRetry func 0 r = ⟨Except.error (JsError.uploadAbortedError msg), j + 1, j⟩ := by
  have h := executeWithRetry_abort_general j 0 r func msg hjr
    (fun k hk => by simpa using hfail k hk) (by simpa using habort)
  exact h

/-- C2 amended: the first (array-returning) processInBatches variant
satisfies the claim: for every completion order of the tasks (any
permutation of the input indices), the returned sequence has one slot per
input item and slot i holds the worker result for item i. -/
theorem processInBatches_preserves_order {α β : Type} (items : List α) (worker : α → β)
    (order : List Nat) (hperm : order.Perm (List.range items.length)) :
    (processInBatches items worker order).length = items.length ∧
    ∀ i, i < items.length →
      (processInBatches items worker order)[i]? = some (items[i]?.map worker) := by
  constructor
  · rw [processInBatches, foldl_set_length, List.length_replicate]
  · intro i hi
    have hmem : i ∈ order := hperm.mem_iff.mpr (List.mem_range.mpr hi)
    exact foldl_set_mem (fun j => items[j]?.map worker) order _ i hmem
      (by rw [List.length_replicate]; exact hi)

/-- C2 amended, witness: three items completing in the order 2, 0, 1 still
yield a 3-slot sequence whose slot 1 holds the worker result of item 1. -/
theorem processInBatches_preserves_order_witness :
    (processInBatches ([3, 4, 5] : List Nat) (fun n => n * 10) [2, 0, 1]).length = 3 ∧
    (processInBatches ([3, 4, 5] : List Nat) (fun n => n * 10) [2, 0, 1])[1]? =
      some ((([3, 4, 5] : List Nat)[1]?).map (fun n => n * 10)) :=
  ⟨(processInBatches_preserves_order ([3, 4, 5] : List Nat) (fun n => n * 10) [2, 0, 1]
      (by decide)).1,
   (processInBatches_preserves_order ([3, 4, 5] : List Nat) (fun n => n * 10) [2, 0, 1]
      (by decide)).2 1 (by decide)⟩

/-- C4: under the single-threaded cooperative model, with wait/decrement
and signal/increment as the only permit operations, every enabled trace of
semaphore operations from the initial state count = maxParallel reaches
only states where the number of started-but-unsettled workers is at most
maxParallel. -/
theorem semaphore_bounds_in_flight (P : Nat) (trace : List SemOp) (s : SemState)
    (hrun : execTrace (initSem P) trace = some s) : s.inFlight ≤ P := by
  have h := execTrace_invariant trace (initSem P) s P (Int.natCast_nonneg P)
    (by show (P : Int) + ((0 : Nat) : Int) = (P : Int); simp) hrun
  omega

/-- C4, witness: with maxParallel = 2, the enabled trace wait, wait,
signal, wait ends with 2 workers in flight, within the bound. -/
theorem semaphore_bounds_in_flight_witness : (⟨0, 2⟩ : SemState).inFlight ≤ 2 :=
  semaphore_bounds_in_flight 2 [SemOp.wait, SemOp.wait, SemOp.signal, SemOp.wait] ⟨0, 2⟩
    (by decide)

/-- C8: in a chunked upload with totalParts chunks, for every sequence of
per-chunk progress reports with indices below totalParts and values in
0..100, the overall value handed to the caller after the n+1-th report
equals the sum over all totalParts chunks of their last-known percentage
(unreported chunks contributing 0 but still counted in the denominator)
divided by totalParts, and that value lies in 0..100. -/
theorem uploadPart_progress_overall (T : Nat) (reports : List (Nat × ℚ)) (n : Nat)
    (hT : 0 < T) (hr : ∀ r ∈ reports, r.1 < T ∧ 0 ≤ r.2 ∧ r.2 ≤ 100)
    (_hn : n < reports.length) :
    emittedOverall T reports n =
      Finset.sum (Finset.range T) (lastKnown (progressTable (reports.take (n + 1)))) / (T : ℚ) ∧
    0 ≤ emittedOverall T reports n ∧ emittedOverall T reports n ≤ 100 := by
  have hsub : ∀ r ∈ reports.take (n + 1), r.1 < T ∧ 0 ≤ r.2 ∧ r.2 ≤ 100 :=
    fun r hmem => hr r (List.take_subset (n + 1) reports hmem)
  obtain ⟨hnd, hkv⟩ := foldl_mapSet_invariant T (reports.take (n + 1)) [] hsub
    (by rw [List.map_nil]; exact List.nodup_nil) (by intro kv h; cases h)
  have hTQ : (0 : ℚ) < (T : ℚ) := by exact_mod_cast hT
  have hsum : Finset.sum (Finset.range T) (lastKnown (progressTable (reports.take (n + 1)))) =
      mapValuesSum (progressTable (reports.take (n + 1))) :=
    sum_lastKnown T (progressTable (reports.take (n + 1))) hnd (fun kv h => (hkv kv h).1)
  refine ⟨by rw [emittedOverall, hsum], ?_, ?_⟩
  · refine div_nonneg ?_ (le_of_lt hTQ)
    rw [← hsum]
    exact Finset.sum_nonneg fun k _ =>
      (lastKnown_bounds k (progressTable (reports.take (n + 1))) fun kv h => (hkv kv h).2).1
  · rw [emittedOverall, div_le_iff₀ hTQ, ← hsum]
    calc Finset.sum (Finset.range T) (lastKnown (progressTable (reports.take (n + 1))))
        ≤ Finset.sum (Finset.range T) (fun _ => (100 : ℚ)) :=
          Finset.sum_le_sum fun k _ =>
            (lastKnown_bounds k (progressTable (reports.take (n + 1)))
              fun kv h => (hkv kv h).2).2
    _ = 100 * (T : ℚ) := by
          rw [Finset.sum_const, Finset.card_range, nsmul_eq_mul, mul_comm]

/-- C8, witness: two chunks reporting 50 then 100 then 100: the third
report emits (100 + 100) / 2 = 100, matching the last-known sum over both
chunks, within 0..100. -/
theorem uploadPart_progress_overall_witness :
    emittedOverall 2 [(0, 50), (1, 100), (0, 100)] 2 =
      Finset.sum (Finset.range 2)
        (lastKnown (progressTable (([(0, 50), (1, 100), (0, 100)] : List (Nat × ℚ)).take 3))) /
        ((2 : Nat) : ℚ) ∧
    0 ≤ emittedOverall 2 [(0, 50), (1, 100), (0, 100)] 2 ∧
    emittedOverall 2 [(0, 50), (1, 100), (0, 100)] 2 ≤ 100 :=
  uploadPart_progress_overall 2 [(0, 50), (1, 100), (0, 100)] 2 (by decide)
    (by
      intro r hmem
      rcases List.mem_cons.mp hmem with h | hmem
      · rw [h]; refine ⟨by decide, by norm_num, by norm_num⟩
      rcases List.mem_cons.mp hmem with h | hmem
      · rw [h]; refine ⟨by decide, by norm_num, by norm_num⟩
      rcases List.mem_cons.mp hmem with h | hmem
      · rw [h]; refine ⟨by decide, by norm_num, by norm_num⟩
      · cases hmem)
    (by decide)

/-- C7, witness: an action aborting on its first attempt, run with a
budget of 5 retries, settles after exactly 1 invocation and 0 delays. -/
theorem executeWithRetry_abort_bypass_witness :
    executeWithRetry
      (fun _ => (Except.error (JsError.uploadAbortedError "stop") : Except JsError Nat)) 0 5 =
      ⟨Except.error (JsError.uploadAbortedError "stop"), 1, 0⟩ :=
  executeWithRetry_abort_bypass 5 0
    (fun _ => (Except.error (JsError.uploadAbortedError "stop") : Except JsError Nat))
    "stop" (by omega) (fun k hk => absurd hk (by omega)) rfl

end UploadChunkFile
